import Mathlib

/-!
Shallow embedding of the client-side network synchronisation layer of
`thanatos` (`src/thanatos/src/net.rs`, protocol types from
`src/nyx/src/protocol.rs`).

Modelling conventions:
* `f32` scalars (positions, time) are idealised as `ℚ`; `glam::Vec3` becomes a
  record of three rationals.
* `std::time::Instant` is a rational time point. The Rust standard library
  (since 1.60) defines `Instant - Instant` via `duration_since`, which
  SATURATES to zero when the right operand is later; `instantSub` models that.
* `u64` fields (`ClientId`, `Tick`) are `Nat`: the client code only copies and
  compares them, so wraparound never matters.
* A Rust `panic!` / `.unwrap()` on `None` is modelled by returning `none` from
  an `Option`-valued function: `none` = the call panics, `some s` = it returns
  normally with state `s`.
* The ECS world (`tecs`) is modelled by an explicit `WorldState`: the single
  local `Player` entity's translation, the list of `OtherPlayer` entities in
  spawn order, the `MovementSystem`'s pending-position map and the
  `Connection` resource.
-/

namespace Thanatos

/-- `glam::Vec3` with `f32` components idealised as rationals. -/
structure Vec3 where
  x : ℚ
  y : ℚ
  z : ℚ
deriving DecidableEq, Repr

/-- Componentwise vector addition (`glam` `Vec3 + Vec3`). -/
def Vec3.add (a b : Vec3) : Vec3 := ⟨a.x + b.x, a.y + b.y, a.z + b.z⟩

/-- Scalar multiplication on the right (`glam` `Vec3 * f32`). -/
def Vec3.smul (v : Vec3) (t : ℚ) : Vec3 := ⟨v.x * t, v.y * t, v.z * t⟩

/-- `f32::MAX` as an exact rational: `(2^24 - 1) * 2^104`. -/
def f32MAX : ℚ := (2 ^ 24 - 1) * 2 ^ 104

/-- `nyx::protocol::TPS` (ticks per second). -/
def TPS : ℚ := 20

/-- `nyx::protocol::ClientId` (a `u64`, only ever copied and compared). -/
abbrev ClientId := Nat

/-- `nyx::protocol::Tick` (a `u64`, only ever copied and compared here). -/
abbrev Tick := Nat

/-- `nyx::protocol::Clientbound`. -/
inductive Clientbound
  | authSuccess (id : ClientId)
  | spawn (id : ClientId) (position : Vec3)
  | despawn (id : ClientId)
  | move (id : ClientId) (position : Vec3) (tick : Tick)
deriving DecidableEq, Repr

/-- `nyx::protocol::ClientboundBundle`. -/
structure ClientboundBundle where
  tick : Tick
  messages : List Clientbound
deriving DecidableEq, Repr

/-- The fields of `thanatos::net::Connection` relevant to reconciliation
(the socket and scratch buffer carry no reconciliation state). -/
structure Connection where
  id : Option ClientId
  tick : Tick
deriving DecidableEq, Repr

/-- `Instant - Instant` in Rust ≥ 1.60: `duration_since` saturates to the zero
duration when the subtrahend is the later instant. -/
def instantSub (a b : ℚ) : ℚ := max (a - b) 0

/-- `Positions::push`: append a sample due at `now + 2.0 / TPS`
(`Instant::now() + Duration::from_secs_f32(2.0 / TPS)`). -/
def Positions.push (now : ℚ) (queue : List (ℚ × Vec3)) (position : Vec3) :
    List (ℚ × Vec3) :=
  queue ++ [(now + 2 / TPS, position)]

/-- `Positions::get`: sample the interpolation queue at instant `now`.
Returns the optional interpolated position together with the queue left
behind (the Rust method mutates `self.queue` by popping stale samples).
The one-element case mirrors the source literally: `self.queue.get(1)` on a
one-element deque is `None`. -/
def Positions.get (now : ℚ) : List (ℚ × Vec3) → Option Vec3 × List (ℚ × Vec3)
  | [] => (none, [])
  | [x] => ((([x] : List (ℚ × Vec3)).get? 1).map Prod.snd, [x])
  | first :: second :: rest =>
    if second.1 < now then
      Positions.get now (second :: rest)
    else
      let t := instantSub now first.1 / instantSub second.1 first.1
      (some ((second.2.smul t).add (first.2.smul (1 - t))),
        first :: second :: rest)

/-- The `OtherPlayer` archetype: client id, the `Transform`'s translation, and
the per-entity interpolation queue (render data is irrelevant here). -/
structure OtherPlayer where
  client_id : ClientId
  transform : Vec3
  positions : List (ℚ × Vec3)
deriving DecidableEq, Repr

/-- The ECS world as seen by `MovementSystem` and `Connection::tick`. -/
structure WorldState where
  conn : Connection
  player : Vec3
  others : List OtherPlayer
  pending : List (Tick × Vec3)
deriving DecidableEq, Repr

/-- `HashMap::get` on the pending-position map (modelled as an association
list whose most recent insertion shadows older ones). -/
def pendingGet (m : List (Tick × Vec3)) (k : Tick) : Option Vec3 :=
  (m.find? (fun kv => kv.1 == k)).map Prod.snd

/-- `HashMap::insert` on the pending-position map. -/
def pendingInsert (m : List (Tick × Vec3)) (k : Tick) (v : Vec3) :
    List (Tick × Vec3) :=
  (k, v) :: m

/-- `MovementSystem::spawn`: unconditionally creates a fresh `OtherPlayer`
entity at `position` with an empty interpolation queue. -/
def MovementSystem.spawn (s : WorldState) (client_id : ClientId)
    (position : Vec3) : WorldState :=
  { s with others := s.others ++ [⟨client_id, position, []⟩] }

/-- `MovementSystem::move_player`: reconcile the server echo against the
pending prediction for `tick`; early-return when they agree, otherwise snap
the local player's translation. -/
def MovementSystem.move_player (s : WorldState) (position : Vec3)
    (tick : Tick) : WorldState :=
  match pendingGet s.pending tick with
  | some actual =>
    if position = actual then s else { s with player := position }
  | none => { s with player := position }

/-- The `for_each` loop inside `move_other_player`: `n` starts at the found
index (an `i64`) and is decremented per entity; the entity seen when `n == 0`
receives the push. -/
def pushAt (now : ℚ) (position : Vec3) :
    List OtherPlayer → Int → List OtherPlayer
  | [], _ => []
  | o :: rest, n =>
    (if n = 0 then { o with positions := Positions.push now o.positions position }
     else o) :: pushAt now position rest (n - 1)

/-- `MovementSystem::move_other_player`: find the index of `client_id` among
the `OtherPlayer` entities — `.position(..).unwrap()` panics (`none`) when no
such entity exists — and push `position` into that entity's queue. -/
def MovementSystem.move_other_player (now : ℚ) (s : WorldState)
    (client_id : ClientId) (position : Vec3) : Option WorldState :=
  match s.others.findIdx? (fun o => client_id == o.client_id) with
  | none => none
  | some n => some { s with others := pushAt now position s.others (Int.ofNat n) }

/-- `MovementSystem::update_buffered_positions`: every entity with a
`Positions` queue samples it; on `Some` the translation is overwritten, on
`None` it is left alone; either way the queue keeps the mutation `get`
performed. -/
def MovementSystem.update_buffered_positions (now : ℚ) (s : WorldState) :
    WorldState :=
  { s with others := s.others.map (fun o =>
      match Positions.get now o.positions with
      | (some p, q) => { o with transform := p, positions := q }
      | (none, q) => { o with positions := q }) }

/-- `MovementSystem::despawn`: every `OtherPlayer` whose id matches has its
translation set to `(f32::MAX, f32::MAX, f32::MAX)`; no entity is removed. -/
def MovementSystem.despawn (s : WorldState) (client_id : ClientId) :
    WorldState :=
  { s with others := s.others.map (fun o =>
      if o.client_id == client_id
      then { o with transform := ⟨f32MAX, f32MAX, f32MAX⟩ }
      else o) }

/-- `MovementSystem::send_player_position`: nothing happens without an
assigned id; otherwise the current player translation is recorded in the
pending map under the last known tick (the outbound `Serverbound::Move` write
is an external effect carrying no reconciliation state). -/
def MovementSystem.send_player_position (s : WorldState) : WorldState :=
  match s.conn.id with
  | none => s
  | some _ => { s with pending := pendingInsert s.pending s.conn.tick s.player }

/-- The two variants of `thanatos::event::Event` this system consumes. -/
inductive Event
  | recieved (message : Clientbound)
  | serverTick
deriving DecidableEq, Repr

/-- `MovementSystem::event` (`impl System<Event> for MovementSystem`).
`Clientbound::Move` dispatch first evaluates `conn.id.unwrap()` — a panic
(`none`) when no `AuthSuccess` has assigned an id — then routes to
`move_player` or `move_other_player` by id equality. `AuthSuccess` falls into
the `_ => ()` arm. -/
def MovementSystem.event (now : ℚ) (s : WorldState) : Event → Option WorldState
  | .recieved m =>
    match m with
    | .spawn cid pos => some (MovementSystem.spawn s cid pos)
    | .move cid pos tick =>
      match s.conn.id with
      | none => none
      | some myid =>
        if cid = myid then some (MovementSystem.move_player s pos tick)
        else MovementSystem.move_other_player now s cid pos
    | .despawn cid => some (MovementSystem.despawn s cid)
    | .authSuccess _ => some s
  | .serverTick => some (MovementSystem.send_player_position s)

/-- The result of one non-blocking `UdpSocket::recv` plus `bincode`
deserialisation attempt: a successfully received datagram decodes to
`some bundle` or fails to decode (`ok none`); or the socket reports
`WouldBlock`; or it reports any other error. -/
inductive RecvOutcome
  | ok (decoded : Option ClientboundBundle)
  | wouldBlock
  | err
deriving DecidableEq, Repr

/-- `Connection::get` (the body of `poll()`): on `Ok` the decode result is
`.unwrap()`ed — a decode failure panics (`none`); `WouldBlock` yields
`some none` (no bundle, no panic); any other socket error hits
`panic!("{e}")`. Outer `Option` = panic-freedom, inner = the poll result. -/
def Connection.get : RecvOutcome → Option (Option ClientboundBundle)
  | .ok (some bundle) => some (some bundle)
  | .ok none => none
  | .wouldBlock => some none
  | .err => none

/-- The interception filter inside `Connection::tick`: the closure runs left
to right over the bundle's messages, assigns `conn.id = Some(id)` for EVERY
`AuthSuccess` (so a later one overwrites an earlier one) and drops it from
the list; all other messages pass through. -/
def Connection.interceptAuth (c : Connection) :
    List Clientbound → Connection × List Clientbound
  | [] => (c, [])
  | .authSuccess id :: rest =>
    Connection.interceptAuth { c with id := some id } rest
  | m :: rest =>
    let r := Connection.interceptAuth c rest
    (r.1, m :: r.2)

/-- The resource-mutation phase of `Connection::tick` once a bundle was
polled: the last-known tick is overwritten unconditionally, then the
`AuthSuccess` filter runs. Returns the updated connection and the messages
passed on for reconciliation. -/
def Connection.tickPhase (c : Connection) (bundle : ClientboundBundle) :
    Connection × List Clientbound :=
  Connection.interceptAuth { c with tick := bundle.tick } bundle.messages

/-- One full `Connection::tick` with a polled bundle: the tick/auth phase,
then every surviving message is dispatched to `MovementSystem::event` as
`Event::Recieved`, then `Event::ServerTick` is submitted. `none` = some
dispatch panicked. -/
def processBundle (now : ℚ) (s : WorldState) (bundle : ClientboundBundle) :
    Option WorldState :=
  let r := Connection.tickPhase s.conn bundle
  (r.2.foldlM (fun st m => MovementSystem.event now st (.recieved m))
      { s with conn := r.1 }).bind
    (fun st => MovementSystem.event now st .serverTick)

/-- A sequence of ticks, each consuming one polled bundle (polls that return
no bundle leave the world untouched and so are omitted). -/
def processBundles (now : ℚ) (s : WorldState)
    (bundles : List ClientboundBundle) : Option WorldState :=
  bundles.foldlM (processBundle now) s

/-! ### Helper lemmas -/

/-- Scaling by `0` and adding a vector scaled by `1` is that vector. -/
theorem Vec3.smul_zero_add_smul_one (a b : Vec3) :
    (b.smul 0).add (a.smul 1) = a := by
  cases a; cases b; simp [Vec3.smul, Vec3.add]

/-- Scaling by `1` and adding a vector scaled by `0` is the first vector. -/
theorem Vec3.smul_one_add_smul_zero (a b : Vec3) :
    (a.smul 1).add (b.smul 0) = a := by
  cases a; cases b; simp [Vec3.smul, Vec3.add]

/-- `findIdx?` returns `none` when no element satisfies the predicate. -/
theorem findIdx?_eq_none_of_all {α : Type} (p : α → Bool) :
    ∀ (l : List α), (∀ x ∈ l, p x = false) → l.findIdx? p = none := by
  intro l h
  exact List.findIdx?_eq_none_iff.mpr h

/-- A list maps to itself when the function fixes every member. -/
theorem map_eq_self_of_mem {α : Type} (f : α → α) :
    ∀ (l : List α), (∀ x ∈ l, f x = x) → l.map f = l := by
  intro l
  induction l with
  | nil => intro _; rfl
  | cons x xs ih =>
    intro h
    simp only [List.map_cons, h x (by simp), ih (fun y hy => h y (by simp [hy]))]

/-! ### C4 / C8: local-player reconciliation -/

/-- C4: `move_player` discards the echo exactly when the pending record for
`tick` equals `pos`; otherwise (entry absent or different) it snaps the local
player's position to `pos`, touching nothing else. -/
theorem C4_move_player_spec (s : WorldState) (position : Vec3) (tick : Tick) :
    MovementSystem.move_player s position tick =
      if pendingGet s.pending tick = some position then s
      else { s with player := position } := by
  unfold MovementSystem.move_player
  split
  · rename_i actual heq
    rw [heq]
    by_cases hpa : position = actual
    · subst hpa; simp
    · rw [if_neg hpa, if_neg (fun hc => hpa (Option.some.inj hc).symm)]
  · rename_i heq
    rw [heq]
    simp

/-- C8: when `pos` matches the pending record for `tick`, processing the same
`Move(local_id, pos, tick)` once — and then a second time — leaves the world
state unchanged. -/
theorem C8_move_player_idempotent (s : WorldState) (position : Vec3)
    (tick : Tick) (hpend : pendingGet s.pending tick = some position) :
    MovementSystem.move_player s position tick = s ∧
    MovementSystem.move_player (MovementSystem.move_player s position tick)
      position tick = s := by
  have h1 : MovementSystem.move_player s position tick = s := by
    unfold MovementSystem.move_player
    rw [hpend]
    simp
  exact ⟨h1, by rw [h1, h1]⟩

/-- Concrete witness state for C8: pending already records `(5, (1,0,0))`. -/
def matchedEchoWorld : WorldState :=
  ⟨⟨some 0, 5⟩, ⟨1, 0, 0⟩, [], [(5, ⟨1, 0, 0⟩)]⟩

/-- C8 witness: the idempotence theorem applied at a concrete state. -/
theorem C8_witness :
    MovementSystem.move_player matchedEchoWorld ⟨1, 0, 0⟩ 5 = matchedEchoWorld ∧
    MovementSystem.move_player
      (MovementSystem.move_player matchedEchoWorld ⟨1, 0, 0⟩ 5) ⟨1, 0, 0⟩ 5 =
      matchedEchoWorld :=
  C8_move_player_idempotent matchedEchoWorld ⟨1, 0, 0⟩ 5 (by decide)

/-! ### C5: poll behaviour -/

/-- C5 counterexample: a received datagram that fails to decode makes
`Connection::get` panic (`bincode::deserialize(..).unwrap()`), contradicting
the claim that a malformed datagram is treated as a dropped datagram. -/
theorem C5_counterexample : Connection.get (.ok none) = none := rfl

/-- C5 amended: `poll` returns `None` on would-block and `Some(bundle)` on a
successful receive-and-decode, but a malformed (undecodable) datagram — and
any socket error other than would-block — panics instead of being dropped. -/
theorem C5_poll_spec :
    Connection.get .wouldBlock = some none ∧
    (∀ b : ClientboundBundle, Connection.get (.ok (some b)) = some (some b)) ∧
    Connection.get (.ok none) = none ∧
    Connection.get .err = none :=
  ⟨rfl, fun _ => rfl, rfl, rfl⟩

/-! ### C10: Move dispatch unwraps the session id -/

/-- C10: dispatching any `Clientbound::Move` evaluates `conn.id.unwrap()`
before anything else, so when no `AuthSuccess` has assigned an id the event
handler panics. -/
theorem C10_move_dispatch_unwraps_id (now : ℚ) (s : WorldState)
    (cid : ClientId) (pos : Vec3) (tick : Tick) (hid : s.conn.id = none) :
    MovementSystem.event now s (.recieved (.move cid pos tick)) = none := by
  unfold MovementSystem.event
  rw [hid]

/-- Concrete witness state for C10: connected but not yet authenticated. -/
def unauthenticatedWorld : WorldState :=
  ⟨⟨none, 0⟩, ⟨0, 0, 0⟩, [⟨4, ⟨2, 2, 2⟩, []⟩], []⟩

/-- C10 witness: a `Move` arriving before `AuthSuccess` panics. -/
theorem C10_witness :
    MovementSystem.event 0 unauthenticatedWorld
      (.recieved (.move 3 ⟨1, 1, 1⟩ 2)) = none :=
  C10_move_dispatch_unwraps_id 0 unauthenticatedWorld 3 ⟨1, 1, 1⟩ 2 rfl

/-! ### C1: Move for an unknown remote id -/

/-- Concrete state for C1: authenticated as id 0, no remote entities. -/
def noRemotesWorld : WorldState :=
  ⟨⟨some 0, 0⟩, ⟨0, 0, 0⟩, [], []⟩

/-- C1 counterexample: a `Move` for remote id 1, when no remote entity
exists, makes the handler panic (`position(..).unwrap()` on `None` in
`move_other_player`), contradicting the claim that the event is dropped
without panicking. -/
theorem C1_counterexample :
    MovementSystem.event 0 noRemotesWorld
      (.recieved (.move 1 ⟨3, 3, 3⟩ 7)) = none := rfl

/-- C1 amended: a `Move` whose id differs from the session's own id and
matches no existing remote entity makes the event handler panic (it still
creates no entity, but it is not dropped silently). -/
theorem C1_unknown_remote_move_panics (now : ℚ) (s : WorldState)
    (cid myid : ClientId) (pos : Vec3) (tick : Tick)
    (hid : s.conn.id = some myid) (hne : cid ≠ myid)
    (hno : ∀ o ∈ s.others, o.client_id ≠ cid) :
    MovementSystem.event now s (.recieved (.move cid pos tick)) = none := by
  unfold MovementSystem.event
  rw [hid]
  simp only [if_neg hne]
  unfold MovementSystem.move_other_player
  rw [findIdx?_eq_none_of_all _ s.others
    (fun o ho => by simp [Ne.symm (hno o ho)])]

/-- C1 witness: the amended theorem applied at a concrete state (one remote
entity with id 4; the move targets the unknown id 9). -/
theorem C1_witness :
    MovementSystem.event 0
      (⟨⟨some 0, 0⟩, ⟨0, 0, 0⟩, [⟨4, ⟨2, 2, 2⟩, []⟩], []⟩ : WorldState)
      (.recieved (.move 9 ⟨3, 3, 3⟩ 7)) = none :=
  C1_unknown_remote_move_panics 0
    ⟨⟨some 0, 0⟩, ⟨0, 0, 0⟩, [⟨4, ⟨2, 2, 2⟩, []⟩], []⟩ 9 0 ⟨3, 3, 3⟩ 7
    rfl (by decide) (by decide)

/-! ### C2: identity assignment -/

/-- The id left behind by a message list: the last `AuthSuccess` wins, and
the id is untouched when the list carries none. -/
def authFold (d : Option ClientId) (ms : List Clientbound) : Option ClientId :=
  ms.foldl (fun acc m => match m with
    | Clientbound.authSuccess i => some i
    | _ => acc) d

/-- The interception filter writes exactly `authFold`: every `AuthSuccess`
overwrites the connection id in list order. -/
theorem interceptAuth_id (ms : List Clientbound) :
    ∀ c : Connection, (Connection.interceptAuth c ms).1.id = authFold c.id ms := by
  induction ms with
  | nil => intro c; rfl
  | cons m rest ih =>
    intro c
    cases m with
    | authSuccess i =>
      simpa [Connection.interceptAuth, authFold] using ih { c with id := some i }
    | spawn cid pos => simpa [Connection.interceptAuth, authFold] using ih c
    | despawn cid => simpa [Connection.interceptAuth, authFold] using ih c
    | move cid pos tick => simpa [Connection.interceptAuth, authFold] using ih c

/-- `authFold` never turns a present id into an absent one. -/
theorem authFold_isSome (ms : List Clientbound) :
    ∀ d : Option ClientId, d.isSome → (authFold d ms).isSome := by
  induction ms with
  | nil => intro d h; exact h
  | cons m rest ih =>
    intro d h
    cases m with
    | authSuccess i => exact ih (some i) rfl
    | spawn cid pos => exact ih d h
    | despawn cid => exact ih d h
    | move cid pos tick => exact ih d h

/-- The tick/auth phase of `Connection::tick` writes the `authFold` id. -/
theorem tickPhase_id (c : Connection) (b : ClientboundBundle) :
    (Connection.tickPhase c b).1.id = authFold c.id b.messages := by
  unfold Connection.tickPhase
  rw [interceptAuth_id b.messages { c with tick := b.tick }]

/-- `move_player` never touches the connection resource. -/
theorem move_player_conn (s : WorldState) (p : Vec3) (t : Tick) :
    (MovementSystem.move_player s p t).conn = s.conn := by
  unfold MovementSystem.move_player
  split
  · split <;> rfl
  · rfl

/-- No event dispatched to `MovementSystem::event` touches the connection
resource (it is only read there). -/
theorem event_conn (now : ℚ) (s : WorldState) (e : Event) (s' : WorldState)
    (h : MovementSystem.event now s e = some s') : s'.conn = s.conn := by
  cases e with
  | serverTick =>
    have h1 : some (MovementSystem.send_player_position s) = some s' := h
    rw [← Option.some.inj h1]
    unfold MovementSystem.send_player_position
    split <;> rfl
  | recieved m =>
    cases m with
    | authSuccess i =>
      have h1 : some s = some s' := h
      rw [← Option.some.inj h1]
    | spawn cid pos =>
      have h1 : some (MovementSystem.spawn s cid pos) = some s' := h
      rw [← Option.some.inj h1]; rfl
    | despawn cid =>
      have h1 : some (MovementSystem.despawn s cid) = some s' := h
      rw [← Option.some.inj h1]; rfl
    | move cid pos tick =>
      have h1 : (match s.conn.id with
          | none => none
          | some myid =>
            if cid = myid then some (MovementSystem.move_player s pos tick)
            else MovementSystem.move_other_player now s cid pos) = some s' := h
      cases hid : s.conn.id with
      | none => rw [hid] at h1; exact Option.noConfusion h1
      | some myid =>
        rw [hid] at h1
        have h2 : (if cid = myid
            then some (MovementSystem.move_player s pos tick)
            else MovementSystem.move_other_player now s cid pos) = some s' := h1
        by_cases hc : cid = myid
        · rw [if_pos hc] at h2
          rw [← Option.some.inj h2]
          exact move_player_conn s pos tick
        · rw [if_neg hc] at h2
          unfold MovementSystem.move_other_player at h2
          cases hf : s.others.findIdx? (fun o => cid == o.client_id) with
          | none => rw [hf] at h2; exact Option.noConfusion h2
          | some n =>
            rw [hf] at h2
            have h3 : some
                { s with others := pushAt now pos s.others (Int.ofNat n) } =
                some s' := h2
            rw [← Option.some.inj h3]

/-- Folding the reconciliation dispatch over a message list never touches
the connection resource. -/
theorem foldlM_recieved_conn (now : ℚ) :
    ∀ (ms : List Clientbound) (s s' : WorldState),
    ms.foldlM (fun st m => MovementSystem.event now st (.recieved m)) s =
      some s' → s'.conn = s.conn := by
  intro ms
  induction ms with
  | nil =>
    intro s s' h
    simp only [List.foldlM_nil] at h
    rw [← Option.some.inj h]
  | cons m rest ih =>
    intro s s' h
    rw [List.foldlM_cons] at h
    cases he : MovementSystem.event now s (.recieved m) with
    | none => rw [he] at h; exact absurd h (by simp)
    | some s1 =>
      rw [he] at h
      simp only [Option.bind_eq_bind, Option.some_bind] at h
      rw [ih s1 s' h]
      exact event_conn now s (.recieved m) s1 he

/-- One full bundle-processing step that returns normally keeps the id
assigned once it was assigned. -/
theorem processBundle_id_isSome (now : ℚ) (s : WorldState)
    (bundle : ClientboundBundle) (s' : WorldState)
    (h : processBundle now s bundle = some s') (hs : s.conn.id.isSome) :
    s'.conn.id.isSome := by
  simp only [processBundle] at h
  cases hf : (Connection.tickPhase s.conn bundle).2.foldlM
      (fun st m => MovementSystem.event now st (.recieved m))
      { s with conn := (Connection.tickPhase s.conn bundle).1 } with
  | none => rw [hf] at h; exact absurd h (by simp)
  | some s1 =>
    rw [hf] at h
    simp only [Option.bind_eq_bind, Option.some_bind] at h
    have h1 : s1.conn = (Connection.tickPhase s.conn bundle).1 :=
      foldlM_recieved_conn now _ _ s1 hf
    have h2 : s'.conn = s1.conn := event_conn now s1 .serverTick s' h
    rw [h2, h1, tickPhase_id]
    exact authFold_isSome bundle.messages s.conn.id hs

/-- Over any sequence of processed bundles that returns normally, a present
id stays present. -/
theorem processBundles_id_isSome (now : ℚ) :
    ∀ (bs : List ClientboundBundle) (s s' : WorldState),
    processBundles now s bs = some s' → s.conn.id.isSome →
    s'.conn.id.isSome := by
  intro bs
  induction bs with
  | nil =>
    intro s s' h hs
    simp only [processBundles, List.foldlM_nil] at h
    rw [← Option.some.inj h]
    exact hs
  | cons b rest ih =>
    intro s s' h hs
    simp only [processBundles, List.foldlM_cons] at h
    cases hb : processBundle now s b with
    | none => rw [hb] at h; exact absurd h (by simp)
    | some s1 =>
      rw [hb] at h
      simp only [Option.bind_eq_bind, Option.some_bind] at h
      exact ih s1 s' h (processBundle_id_isSome now s b s1 hb hs)

/-- C2 counterexample: an `AuthSuccess` received while an id is already
present overwrites it (so the id is NOT set at most once), and when two
`AuthSuccess` events arrive in one bundle the second — not the first —
wins. -/
theorem C2_counterexample :
    (Connection.tickPhase ⟨some 1, 0⟩ ⟨7, [.authSuccess 2]⟩).1.id ≠ some 1 ∧
    (Connection.tickPhase ⟨none, 0⟩
      ⟨7, [.authSuccess 1, .authSuccess 2]⟩).1.id = some 2 := by
  exact ⟨by decide, rfl⟩

/-- C2 amended: the id never reverts from present to absent over any
sequence of processed bundles, but it is not set at most once: every
`AuthSuccess` overwrites it, so the LAST one wins (`authFold`). -/
theorem C2_auth_last_wins_never_absent :
    (∀ (c : Connection) (b : ClientboundBundle),
      (Connection.tickPhase c b).1.id = authFold c.id b.messages) ∧
    (∀ (now : ℚ) (bs : List ClientboundBundle) (s s' : WorldState),
      processBundles now s bs = some s' → s.conn.id.isSome →
      s'.conn.id.isSome) :=
  ⟨tickPhase_id, processBundles_id_isSome⟩

/-- Concrete authenticated state for the C2 witness. -/
def authedWorld : WorldState := ⟨⟨some 5, 0⟩, ⟨0, 0, 0⟩, [], []⟩

/-- C2 witness: processing one empty bundle from an authenticated state
keeps the id present. -/
theorem C2_witness :
    (⟨⟨some 5, 3⟩, ⟨0, 0, 0⟩, [], [(3, ⟨0, 0, 0⟩)]⟩ :
      WorldState).conn.id.isSome :=
  C2_auth_last_wins_never_absent.2 0 [⟨3, []⟩] authedWorld
    ⟨⟨some 5, 3⟩, ⟨0, 0, 0⟩, [], [(3, ⟨0, 0, 0⟩)]⟩ rfl rfl

/-! ### C3: spawn / despawn lifecycle -/

/-- C3 counterexample: from a world with no remote entities, the sequence
`Spawn(7, p1)`, `Despawn(7)`, `Spawn(7, p2)` leaves TWO entity records with
client id 7 — `spawn` has no duplicate check and `despawn` only moves the
entity to the `f32::MAX` sentinel instead of removing its record. -/
theorem C3_counterexample :
    ((MovementSystem.spawn
        (MovementSystem.despawn
          (MovementSystem.spawn noRemotesWorld 7 ⟨1, 0, 0⟩) 7)
        7 ⟨2, 0, 0⟩).others.filter (fun o => o.client_id == 7)).length = 2 :=
  rfl

/-- C3 amended: `Spawn` unconditionally appends a fresh entity record (no
no-op on duplicates), and `Despawn` does not remove the record but sets its
translation to `(f32::MAX, f32::MAX, f32::MAX)`; hence
Spawn→Despawn→Spawn for an id with no prior record leaves exactly two
records for that id — one at the sentinel and one at the second spawn's
position. -/
theorem C3_spawn_despawn_spawn (s : WorldState) (id : ClientId)
    (p1 p2 : Vec3) (hno : ∀ o ∈ s.others, o.client_id ≠ id) :
    ((MovementSystem.spawn
        (MovementSystem.despawn (MovementSystem.spawn s id p1) id) id
        p2).others.filter (fun o => o.client_id == id)) =
      [⟨id, ⟨f32MAX, f32MAX, f32MAX⟩, []⟩, ⟨id, p2, []⟩] := by
  have hnil : (s.others.map (fun o =>
      if o.client_id == id
      then { o with transform := (⟨f32MAX, f32MAX, f32MAX⟩ : Vec3) }
      else o)).filter (fun o => o.client_id == id) = [] := by
    rw [List.filter_eq_nil_iff]
    intro a ha
    rcases List.mem_map.mp ha with ⟨o, ho, rfl⟩
    rw [if_neg (by simp [hno o ho])]
    simp [hno o ho]
  unfold MovementSystem.spawn MovementSystem.despawn
  simp only [List.map_append, List.filter_append, List.map_cons, List.map_nil]
  rw [hnil]
  simp

/-- C3 witness: the amended theorem at a concrete world with no remote
entities, id 7, spawn positions `(1,0,0)` then `(2,0,0)`. -/
theorem C3_witness :
    ((MovementSystem.spawn
        (MovementSystem.despawn
          (MovementSystem.spawn noRemotesWorld 7 ⟨1, 0, 0⟩) 7)
        7 ⟨2, 0, 0⟩).others.filter (fun o => o.client_id == 7)) =
      [⟨7, ⟨f32MAX, f32MAX, f32MAX⟩, []⟩, ⟨7, ⟨2, 0, 0⟩, []⟩] :=
  C3_spawn_despawn_spawn noRemotesWorld 7 ⟨1, 0, 0⟩ ⟨2, 0, 0⟩
    (fun o ho => absurd ho (List.not_mem_nil o))

/-! ### C7: fewer than two samples -/

/-- C7: `get()` returns no value on an empty queue and on a one-sample
queue, and the per-tick buffered-position update leaves every entity whose
queue holds fewer than two samples unchanged. -/
theorem C7_fewer_than_two_samples :
    (∀ now : ℚ, (Positions.get now []).1 = none) ∧
    (∀ (now : ℚ) (x : ℚ × Vec3), (Positions.get now [x]).1 = none) ∧
    (∀ (now : ℚ) (s : WorldState),
      (∀ o ∈ s.others, o.positions.length < 2) →
      MovementSystem.update_buffered_positions now s = s) := by
  refine ⟨fun now => rfl, fun now x => rfl, fun now s h => ?_⟩
  unfold MovementSystem.update_buffered_positions
  have hmap : s.others.map (fun o =>
      match Positions.get now o.positions with
      | (some p, q) => { o with transform := p, positions := q }
      | (none, q) => { o with positions := q }) = s.others := by
    apply map_eq_self_of_mem
    intro o ho
    have hlen := h o ho
    cases hq : o.positions with
    | nil =>
      simp only [Positions.get]
      rw [← hq]
    | cons a tl =>
      cases tl with
      | nil =>
        simp only [Positions.get, List.get?_cons_succ, List.get?_nil,
          Option.map_none']
        rw [← hq]
      | cons b tl2 =>
        rw [hq] at hlen
        exact absurd hlen (by simp)
  rw [hmap]

/-- Concrete world for the C7 witness: one remote entity with a single
buffered sample. -/
def singleSampleWorld : WorldState :=
  ⟨⟨some 0, 0⟩, ⟨0, 0, 0⟩, [⟨4, ⟨2, 2, 2⟩, [(3, ⟨1, 1, 1⟩)]⟩], []⟩

/-- C7 witness: the update is a no-op on a world whose only entity has one
buffered sample. -/
theorem C7_witness :
    MovementSystem.update_buffered_positions 0 singleSampleWorld =
      singleSampleWorld :=
  C7_fewer_than_two_samples.2.2 0 singleSampleWorld (by decide)

/-! ### C9: sampling before the first deadline -/

/-- C9 counterexample: `get()` on a two-sample queue at an instant before
the first deadline does not panic — `Instant - Instant` saturates to the
zero duration in Rust (≥ 1.60), so `t = 0` and the first sample's position
is returned (a clamped result). -/
theorem C9_counterexample :
    (Positions.get 0 [(5, ⟨1, 2, 3⟩), (10, ⟨4, 5, 6⟩)]).1 =
      some ⟨1, 2, 3⟩ := by
  have h1 : instantSub 0 5 = 0 := max_eq_right (by norm_num)
  have h2 : ¬ (10 : ℚ) < 0 := by norm_num
  simp [Positions.get, h1, h2, Vec3.smul, Vec3.add, Vec3.mk.injEq]

/-- C9 amended: when `now` is at or before the first sample's deadline (and
the deadlines are increasing), the saturating instant subtraction makes
`t = 0`, so `get()` returns the first sample's position instead of
panicking or extrapolating. -/
theorem C9_pre_deadline_clamps (now : ℚ) (a b : ℚ × Vec3)
    (rest : List (ℚ × Vec3)) (h1 : now ≤ a.1) (hab : a.1 < b.1) :
    (Positions.get now (a :: b :: rest)).1 = some a.2 := by
  have hb : ¬ b.1 < now := not_lt.mpr (lt_of_le_of_lt h1 hab).le
  have hz : instantSub now a.1 = 0 := by
    unfold instantSub
    exact max_eq_right (sub_nonpos.mpr h1)
  simp only [Positions.get, if_neg hb, hz, zero_div, sub_zero]
  rw [Vec3.smul_zero_add_smul_one]

/-- C9 witness: the amended theorem at a concrete three-sample queue
sampled before the first deadline. -/
theorem C9_witness :
    (Positions.get 0
      [(5, ⟨1, 2, 3⟩), (10, ⟨4, 5, 6⟩), (20, ⟨7, 8, 9⟩)]).1 =
      some ⟨1, 2, 3⟩ :=
  C9_pre_deadline_clamps 0 (5, ⟨1, 2, 3⟩) (10, ⟨4, 5, 6⟩)
    [(20, ⟨7, 8, 9⟩)] (by norm_num) (by norm_num)

/-! ### C6: linear interpolation between consecutive deadlines -/

/-- `get` on a queue whose second deadline has not yet passed interpolates
between the first two samples using the saturating instant subtraction. -/
theorem get_pair (now : ℚ) (a b : ℚ × Vec3) (post : List (ℚ × Vec3))
    (h2 : ¬ b.1 < now) :
    (Positions.get now (a :: b :: post)).1 =
      some ((b.2.smul (instantSub now a.1 / instantSub b.1 a.1)).add
        (a.2.smul (1 - instantSub now a.1 / instantSub b.1 a.1))) := by
  simp only [Positions.get, if_neg h2]

/-- Walking the queue: samples strictly before the pair bracketing `now`
are dropped by `get` and never contribute to the returned value. -/
theorem get_skip (now : ℚ) (a b : ℚ × Vec3) (post : List (ℚ × Vec3)) :
    ∀ pre : List (ℚ × Vec3),
    (pre ++ a :: b :: post).Pairwise (fun x y => x.1 < y.1) →
    a.1 ≤ now → now ≤ b.1 →
    (Positions.get now (pre ++ a :: b :: post)).1 =
      (Positions.get now (a :: b :: post)).1 := by
  intro pre
  induction pre with
  | nil => intro _ _ _; rfl
  | cons p pre ih =>
    intro hsort h1 h2
    have hp : ∀ y ∈ pre ++ a :: b :: post, p.1 < y.1 :=
      (List.pairwise_cons.mp hsort).1
    have hsort' : (pre ++ a :: b :: post).Pairwise (fun x y => x.1 < y.1) :=
      (List.pairwise_cons.mp hsort).2
    cases pre with
    | nil =>
      simp only [List.cons_append, List.nil_append] at hsort' hp ⊢
      have hpa : p.1 < a.1 := hp a (List.mem_cons_self a (b :: post))
      have hab : a.1 < b.1 :=
        (List.pairwise_cons.mp hsort').1 b (List.mem_cons_self b post)
      by_cases ha : a.1 < now
      · simp only [Positions.get, if_pos ha]
      · -- here now = a.1 exactly: both sides return the first sample
        have hnow : now = a.1 := le_antisymm (not_lt.mp ha) h1
        have hlhs : (Positions.get now (p :: a :: b :: post)).1 =
            some ((a.2.smul 1).add (p.2.smul (1 - 1))) := by
          rw [get_pair now p a (b :: post) ha]
          have hnum : instantSub now p.1 = a.1 - p.1 := by
            rw [hnow]
            exact max_eq_left (sub_nonneg.mpr hpa.le)
          have hden : instantSub a.1 p.1 = a.1 - p.1 :=
            max_eq_left (sub_nonneg.mpr hpa.le)
          rw [hnum, hden, div_self (sub_ne_zero.mpr (ne_of_gt hpa))]
        have hrhs : (Positions.get now (a :: b :: post)).1 =
            some ((b.2.smul 0).add (a.2.smul (1 - 0))) := by
          rw [get_pair now a b post (not_lt.mpr h2)]
          have hnum : instantSub now a.1 = 0 := by
            rw [hnow]
            exact max_eq_right (sub_nonpos.mpr le_rfl)
          rw [hnum, zero_div]
        rw [hlhs, hrhs]
        rw [sub_self, sub_zero, Vec3.smul_one_add_smul_zero,
          Vec3.smul_zero_add_smul_one]
    | cons c pre' =>
      simp only [List.cons_append] at hsort' hp ⊢
      have hca : c.1 < a.1 :=
        (List.pairwise_cons.mp hsort').1 a
          (List.mem_append_right pre' (List.mem_cons_self a (b :: post)))
      have hc : c.1 < now := lt_of_lt_of_le hca h1
      rw [show Positions.get now (p :: c :: (pre' ++ a :: b :: post)) =
          Positions.get now (c :: (pre' ++ a :: b :: post)) from by
        simp only [Positions.get, if_pos hc]]
      exact ih hsort' h1 h2

/-- C6: with strictly increasing deadlines, sampling between two consecutive
deadlines returns the straight-line interpolation
`second.position * t + first.position * (1 - t)` with
`t = (now - first.deadline) / (second.deadline - first.deadline)` lying in
`[0,1]`; earlier samples are dropped and never contribute. -/
theorem C6_linear_interpolation (now : ℚ) (pre post : List (ℚ × Vec3))
    (a b : ℚ × Vec3)
    (hsort : (pre ++ a :: b :: post).Pairwise (fun x y => x.1 < y.1))
    (h1 : a.1 ≤ now) (h2 : now ≤ b.1) :
    (Positions.get now (pre ++ a :: b :: post)).1 =
        some ((b.2.smul ((now - a.1) / (b.1 - a.1))).add
          (a.2.smul (1 - (now - a.1) / (b.1 - a.1)))) ∧
      0 ≤ (now - a.1) / (b.1 - a.1) ∧ (now - a.1) / (b.1 - a.1) ≤ 1 := by
  have hsuffix : (a :: b :: post).Pairwise (fun x y => x.1 < y.1) :=
    (List.pairwise_append.mp hsort).2.1
  have hab : a.1 < b.1 :=
    (List.pairwise_cons.mp hsuffix).1 b (List.mem_cons_self b post)
  have hnum : instantSub now a.1 = now - a.1 :=
    max_eq_left (sub_nonneg.mpr h1)
  have hden : instantSub b.1 a.1 = b.1 - a.1 :=
    max_eq_left (sub_nonneg.mpr hab.le)
  have hpos : 0 < b.1 - a.1 := sub_pos.mpr hab
  refine ⟨?_, div_nonneg (sub_nonneg.mpr h1) hpos.le, ?_⟩
  · rw [get_skip now a b post pre hsort h1 h2,
      get_pair now a b post (not_lt.mpr h2), hnum, hden]
  · rw [div_le_one hpos]
    exact sub_le_sub_right h2 a.1

/-- C6 witness: samples at deadlines 0 and 10 with positions `(0,0,0)` and
`(10,0,0)`, sampled at the midpoint `now = 5`: `t = 1/2 ∈ [0,1]`. -/
theorem C6_witness :
    (Positions.get 5 [(0, ⟨0, 0, 0⟩), (10, ⟨10, 0, 0⟩)]).1 =
        some ((Vec3.smul ⟨10, 0, 0⟩ ((5 - 0) / (10 - 0))).add
          (Vec3.smul ⟨0, 0, 0⟩ (1 - (5 - 0) / (10 - 0)))) ∧
      (0 : ℚ) ≤ (5 - 0) / (10 - 0) ∧ ((5 - 0) / (10 - 0) : ℚ) ≤ 1 :=
  C6_linear_interpolation 5 [] [] (0, ⟨0, 0, 0⟩) (10, ⟨10, 0, 0⟩)
    (by norm_num [List.pairwise_cons]) (by norm_num) (by norm_num)

end Thanatos
